import Mathlib

/-!
Verification of the ipcraft HDL front end (entity parser, width resolver,
clock/reset classifier, bus-interface detector) against its design
specification.  The definitions below are shallow embeddings of the Python
sources under `src/ipcraft`; strings are treated as lists of characters and
the regular expressions of the source are embedded as explicit scanners with
the same matching semantics (leftmost search, greedy/lazy quantifiers as in
the source pattern).
-/

set_option autoImplicit false

namespace Ipcraft

/-! ### Character and string helpers (semantics of the Python primitives) -/

/-- Python's `\w` character class (ASCII fragment): letters, digits, underscore. -/
def isWordChar (c : Char) : Bool :=
  c.isAlphanum || c = '_'

/-- Python's `\s` character class: space, tab, newline, carriage return,
form feed, vertical tab. -/
def isPyWs (c : Char) : Bool :=
  c = ' ' || c = '\t' || c = '\n' || c = '\r' || c = Char.ofNat 11 || c = Char.ofNat 12

/-- Greedy span: longest prefix of characters satisfying `p`, and the rest.
This is the semantics of a greedy character-class quantifier in a regex. -/
def spanP (p : Char → Bool) : List Char → List Char × List Char
  | [] => ([], [])
  | c :: cs =>
    if p c then
      let r := spanP p cs
      (c :: r.1, r.2)
    else ([], c :: cs)

/-- Does the pattern (first argument) literally start the input (second argument)? -/
def listStartsWith : List Char → List Char → Bool
  | [], _ => true
  | _ :: _, [] => false
  | a :: as, b :: bs => a = b && listStartsWith as bs

/-- Match the lowercase pattern against the input case-insensitively and
return the rest of the input (an `IGNORECASE` literal in a regex). -/
def matchCaseless : List Char → List Char → Option (List Char)
  | [], rest => some rest
  | _ :: _, [] => none
  | pc :: ps, c :: cs => if c.toLower = pc then matchCaseless ps cs else none

/-- Contiguous-substring test: semantics of Python's `sub in s`. -/
def hasSubList (pat : List Char) : List Char → Bool
  | [] => listStartsWith pat []
  | c :: cs => listStartsWith pat (c :: cs) || hasSubList pat cs

/-- Python `sub in s` on strings. -/
def containsSub (s pat : String) : Bool :=
  hasSubList pat.data s.data

/-- Python `str.lower()` (ASCII fragment). -/
def lowerStr (s : String) : String :=
  String.mk (s.data.map Char.toLower)

/-- Python `str.upper()` (ASCII fragment). -/
def upperStr (s : String) : String :=
  String.mk (s.data.map Char.toUpper)

/-- Python `str.strip()`: remove leading and trailing whitespace. -/
def trimL (l : List Char) : List Char :=
  ((l.dropWhile isPyWs).reverse.dropWhile isPyWs).reverse

/-- Python `str.strip()` on strings. -/
def trimStr (s : String) : String :=
  String.mk (trimL s.data)

/-- Python `s.startswith(pre)`. -/
def startsWithStr (pre s : String) : Bool :=
  listStartsWith pre.data s.data

/-- Python `s.endswith(suf)`. -/
def endsWithStr (s suf : String) : Bool :=
  listStartsWith suf.data.reverse s.data.reverse

/-- Value of a string of decimal digits (Python `int` on the matched group). -/
def digitsVal (ds : List Char) : Nat :=
  ds.foldl (fun a c => a * 10 + (c.toNat - 48)) 0

/-! ### Data model: `src/ipcraft/model/port.py` -/

/-- Port direction enumeration (`PortDirection`). -/
inductive PortDirection where
  | IN | OUT | INOUT
deriving DecidableEq, Repr

/-- `PortDirection.from_string`: normalize common direction aliases;
anything unrecognized falls back to `IN` (the `mapping.get(normalized, cls.IN)`
default). -/
def PortDirection.fromString (value : String) : PortDirection :=
  let normalized := trimStr (lowerStr value)
  if normalized = "in" then .IN
  else if normalized = "input" then .IN
  else if normalized = "out" then .OUT
  else if normalized = "output" then .OUT
  else if normalized = "buffer" then .OUT
  else if normalized = "inout" then .INOUT
  else if normalized = "linkage" then .IN
  else .IN

/-- A port width is either a resolved bit count or a symbolic parameter
reference (`width: Union[int, str]`). -/
inductive PortWidth where
  | num (n : Nat)
  | sym (s : String)
deriving DecidableEq, Repr

/-- The fields of `Port` that the parser and detector read or write. -/
structure Port where
  name : String
  direction : PortDirection
  width : PortWidth
  type : String
deriving DecidableEq, Repr

/-- Reset polarity (`Polarity` in `model/base.py`). -/
inductive Polarity where
  | ACTIVE_HIGH | ACTIVE_LOW
deriving DecidableEq, Repr

/-- The fields of `Clock` that the classifier produces. -/
structure Clock where
  name : String
deriving DecidableEq, Repr

/-- The fields of `Reset` that the classifier produces. -/
structure Reset where
  name : String
  polarity : Polarity
deriving DecidableEq, Repr

/-! ### Clock/reset classifier: `BusInterfaceDetector.classify_clocks_resets`
(`src/ipcraft/parser/hdl/bus_detector.py`, lines 74-141). -/

/-- `re.search` of one of the clock patterns on the lowercased name:
`^i?_?clk`, `^i?_?clock`, `_clk$`, `_clock$`, `^aclk$`, `^i_clk_.*`. -/
def isClockName (nl : String) : Bool :=
  ["", "i", "_", "i_"].any (fun p => startsWithStr (p ++ "clk") nl) ||
  ["", "i", "_", "i_"].any (fun p => startsWithStr (p ++ "clock") nl) ||
  endsWithStr nl "_clk" || endsWithStr nl "_clock" || nl = "aclk" ||
  startsWithStr "i_clk_" nl

/-- `re.search` of one of the reset patterns on the lowercased name:
`^i?_?rst`, `^i?_?reset`, `_rst$`, `_reset$`, `^aresetn?$`, `^i_rst_n?_.*`. -/
def isResetName (nl : String) : Bool :=
  ["", "i", "_", "i_"].any (fun p => startsWithStr (p ++ "rst") nl) ||
  ["", "i", "_", "i_"].any (fun p => startsWithStr (p ++ "reset") nl) ||
  endsWithStr nl "_rst" || endsWithStr nl "_reset" || nl = "areset" || nl = "aresetn" ||
  startsWithStr "i_rst__" nl || startsWithStr "i_rst_n_" nl

/-- Polarity inference for a detected reset: active-low exactly when the
lowercased name contains `"_n"` or `"resetn"` as a substring
(`"_n" in name_lower or "resetn" in name_lower`). -/
def resetPolarity (nl : String) : Polarity :=
  if containsSub nl "_n" || containsSub nl "resetn" then .ACTIVE_LOW else .ACTIVE_HIGH

/-- Lowercased name of a port, as the classifier computes it
(`name_lower = port.name.lower()`). -/
def Port.nameLower (p : Port) : String :=
  lowerStr p.name

/-- `classify_clocks_resets`: walk the ports in order; non-input ports are
skipped; a port matching a clock pattern is appended to the clock list and a
port matching a reset pattern is appended to the reset list (the source
checks the reset patterns even after a clock pattern matched). -/
def classifyClocksResets : List Port → List Clock × List Reset
  | [] => ([], [])
  | p :: rest =>
    let r := classifyClocksResets rest
    if p.direction = .IN then
      ((if isClockName p.nameLower then [⟨p.name⟩] else []) ++ r.1,
       (if isResetName p.nameLower then [⟨p.name, resetPolarity p.nameLower⟩] else []) ++ r.2)
    else r

/-! ### Theorems for the clock/reset classifier and direction normalization -/

/-- C10: `PortDirection.from_string` is total and silently defaulting: a
direction string whose lowercased, stripped form is not one of the
recognized aliases (`in`, `input`, `out`, `output`, `buffer`, `inout`,
`linkage`) is mapped to the canonical direction `in`, so an unrecognized
direction keyword yields an input port rather than an error. -/
theorem c10_direction_default (s : String)
    (h : trimStr (lowerStr s) ∉
      (["in", "input", "out", "output", "buffer", "inout", "linkage"] : List String)) :
    PortDirection.fromString s = .IN := by
  simp only [List.mem_cons, List.not_mem_nil, or_false, not_or] at h
  obtain ⟨h1, h2, h3, h4, h5, h6, h7⟩ := h
  simp [PortDirection.fromString, h1, h2, h3, h4, h5, h6, h7]

/-- Witness for C10 at the concrete unrecognized keyword `"signal"`. -/
theorem c10_direction_default_witness :
    (trimStr (lowerStr "signal") ∉
      (["in", "input", "out", "output", "buffer", "inout", "linkage"] : List String)) ∧
    PortDirection.fromString "signal" = .IN :=
  ⟨by decide, c10_direction_default "signal" (by decide)⟩

/-- C4 (failing input): the input port `rst_clk` matches both a clock
pattern (`_clk$`) and a reset pattern (`^i?_?rst`), and
`classify_clocks_resets` appends it to both returned lists, so the Clock
and Reset lists are not disjoint as the specification requires. -/
theorem c4_clock_reset_overlap :
    (classifyClocksResets [⟨"rst_clk", .IN, .num 1, "std_logic"⟩]).1 = [⟨"rst_clk"⟩] ∧
    (classifyClocksResets [⟨"rst_clk", .IN, .num 1, "std_logic"⟩]).2 =
      [⟨"rst_clk", .ACTIVE_HIGH⟩] := by
  constructor <;> decide

/-- C5 (counterexample): the port `rst_new` is classified as a reset with
polarity active-low although its name carries no trailing negation marker
(it ends neither with `"_n"` nor with `"n"`): the source tests `"_n" in
name_lower` as a substring anywhere, not a trailing marker. -/
theorem c5_polarity_counterexample :
    (classifyClocksResets [⟨"rst_new", .IN, .num 1, "std_logic"⟩]).2 =
      [⟨"rst_new", .ACTIVE_LOW⟩] ∧
    endsWithStr "rst_new" "_n" = false ∧ endsWithStr "rst_new" "n" = false := by
  refine ⟨by decide, by decide, by decide⟩

/-- C5 (amended): every port classified as a reset has polarity active-low
exactly when its lowercased name contains `"_n"` or `"resetn"` as a
substring; every other reset name yields polarity active-high. -/
theorem c5_polarity_substring (ports : List Port) (r : Reset)
    (hr : r ∈ (classifyClocksResets ports).2) :
    r.polarity = .ACTIVE_LOW ↔
      (containsSub (lowerStr r.name) "_n" = true ∨
       containsSub (lowerStr r.name) "resetn" = true) := by
  induction ports with
  | nil => simp [classifyClocksResets] at hr
  | cons p rest ih =>
    simp only [classifyClocksResets] at hr
    by_cases hd : p.direction = .IN
    · rw [if_pos hd] at hr
      rcases List.mem_append.mp hr with hmem | hmem
      · by_cases hres : isResetName p.nameLower = true
        · rw [if_pos hres] at hmem
          rcases List.mem_singleton.mp hmem with rfl
          show resetPolarity p.nameLower = .ACTIVE_LOW ↔ _
          rw [resetPolarity]
          by_cases hc : (containsSub p.nameLower "_n" ||
              containsSub p.nameLower "resetn") = true
          · rw [if_pos hc]
            simp only [Bool.or_eq_true] at hc
            simpa [Port.nameLower] using hc
          · rw [if_neg hc]
            simp only [Bool.or_eq_true] at hc
            push_neg at hc
            constructor
            · intro habs; cases habs
            · intro habs
              rcases habs with h1 | h1
              · exact absurd h1 (by simpa [Port.nameLower] using hc.1)
              · exact absurd h1 (by simpa [Port.nameLower] using hc.2)
        · rw [if_neg hres] at hmem
          simp at hmem
      · exact ih hmem
    · rw [if_neg hd] at hr
      exact ih hr

/-- Witness for C5 (amended) at the concrete reset port `rst_n`. -/
theorem c5_polarity_substring_witness :
    (Reset.mk "rst_n" .ACTIVE_LOW ∈
      (classifyClocksResets [⟨"rst_n", .IN, .num 1, "std_logic"⟩]).2) ∧
    ((Reset.mk "rst_n" .ACTIVE_LOW).polarity = .ACTIVE_LOW ↔
      (containsSub (lowerStr (Reset.mk "rst_n" Polarity.ACTIVE_LOW).name) "_n" = true ∨
       containsSub (lowerStr (Reset.mk "rst_n" Polarity.ACTIVE_LOW).name) "resetn" = true)) :=
  ⟨by decide,
   c5_polarity_substring [⟨"rst_n", .IN, .num 1, "std_logic"⟩]
     (Reset.mk "rst_n" .ACTIVE_LOW) (by decide)⟩

/-! ### Prefix grouping: `BusInterfaceDetector._group_ports_by_prefix`
(`src/ipcraft/parser/hdl/bus_detector.py`, lines 143-182). -/

/-- The lazy `\w*?` quantifier followed by one of the follower literals
(the `(?:aw|ar|w|r|b)` / `t` tails of the known-prefix patterns): consume
as few word characters as possible until a follower matches, returning the
consumed characters, or fail. -/
def lazyScan (fs : List String) : List Char → Option (List Char)
  | [] => if fs.any (fun f => listStartsWith f.data []) then some [] else none
  | c :: rest =>
    if fs.any (fun f => listStartsWith f.data (c :: rest)) then some []
    else if isWordChar c then (lazyScan fs rest).map (c :: ·) else none

/-- The known bus-prefix patterns, in source order: pattern base and the
follower alternatives after the lazy `\w*?` (empty list when the whole
pattern is the captured group, as for `^(avs_)` / `^(avm_)`). -/
def prefixPatterns : List (String × List String) :=
  [("s_axi_", ["aw", "ar", "w", "r", "b"]),
   ("m_axi_", ["aw", "ar", "w", "r", "b"]),
   ("s_axis_", ["t"]),
   ("m_axis_", ["t"]),
   ("avs_", []),
   ("avm_", [])]

/-- Try the known-prefix patterns in order on the lowercased name
(`re.match`, so anchored at the start); the captured group is the base
plus the characters consumed by the lazy quantifier. -/
def knownPfxGo (nl : String) : List (String × List String) → Option String
  | [] => none
  | (base, fs) :: rest =>
    if listStartsWith base.data nl.data then
      if fs.isEmpty then some base
      else
        match lazyScan fs (nl.data.drop base.data.length) with
        | some consumed => some (String.mk (base.data ++ consumed))
        | none => knownPfxGo nl rest
    else knownPfxGo nl rest

/-- The known-prefix match for a lowercased port name. -/
def knownPfx (nl : String) : Option String :=
  knownPfxGo nl prefixPatterns

/-- Python `name_lower.split("_")`. -/
def splitOnUnders : List Char → List (List Char)
  | [] => [[]]
  | c :: rest =>
    let r := splitOnUnders rest
    if c = '_' then [] :: r
    else
      match r with
      | [] => [[c]]
      | h :: t => (c :: h) :: t

/-- Generic fallback: a two-token underscore-delimited candidate made of the
first two parts of the name, kept only when some other port of the list
starts with it. -/
def fallbackPfx (ports : List Port) (p : Port) : Option String :=
  match splitOnUnders p.nameLower.data with
  | p0 :: p1 :: _ =>
    let pot := p0 ++ '_' :: p1 ++ ['_']
    if ports.any (fun q => (q != p) && listStartsWith pot q.nameLower.data) then
      some (String.mk pot)
    else none
  | _ => none

/-- The prefix under which a port is grouped, if any: first known-prefix
pattern that matches, otherwise the two-token fallback (the source appends
each port to at most one group and `break`s after the first match). -/
def portPfx (ports : List Port) (p : Port) : Option String :=
  match knownPfx p.nameLower with
  | some k => some k
  | none => fallbackPfx ports p

/-- `groups[prefix].append(port)` on an insertion-ordered association list
(the `defaultdict(list)` of the source). -/
def addGroup : List (String × List Port) → String → Port → List (String × List Port)
  | [], k, p => [(k, [p])]
  | (k', ps) :: rest, k, p =>
    if k' = k then (k', ps ++ [p]) :: rest else (k', ps) :: addGroup rest k p

/-- The grouping loop: `all` is the full port list (used by the fallback
rule), the first list argument the ports still to process. -/
def groupGo (all : List Port) : List Port → List (String × List Port) →
    List (String × List Port)
  | [], acc => acc
  | p :: rest, acc =>
    match portPfx all p with
    | some k => groupGo all rest (addGroup acc k p)
    | none => groupGo all rest acc

/-- `_group_ports_by_prefix`: group ports by common prefix. -/
def groupPortsByPrefix (ports : List Port) : List (String × List Port) :=
  groupGo ports ports []

/-- Every member of every group carries the prefix it was filed under. -/
def GroupsOK (all : List Port) (acc : List (String × List Port)) : Prop :=
  ∀ kg ∈ acc, ∀ q ∈ kg.2, portPfx all q = some kg.1

theorem groupsOK_addGroup (all : List Port) (acc : List (String × List Port))
    (k : String) (p : Port) (hacc : GroupsOK all acc)
    (hp : portPfx all p = some k) : GroupsOK all (addGroup acc k p) := by
  induction acc with
  | nil =>
    intro kg hkg q hq
    simp only [addGroup, List.mem_singleton] at hkg
    subst hkg
    simp only [List.mem_singleton] at hq
    subst hq
    exact hp
  | cons hd tl ih =>
    obtain ⟨k', ps⟩ := hd
    intro kg hkg q hq
    simp only [addGroup] at hkg
    by_cases hk : k' = k
    · rw [if_pos hk] at hkg
      rcases List.mem_cons.mp hkg with rfl | htl
      · rcases List.mem_append.mp hq with hq1 | hq1
        · exact hacc (k', ps) (List.mem_cons_self _ _) q hq1
        · rcases List.mem_singleton.mp hq1 with rfl
          show portPfx all q = some k'
          rw [hk]
          exact hp
      · exact hacc kg (List.mem_cons_of_mem _ htl) q hq
    · rw [if_neg hk] at hkg
      rcases List.mem_cons.mp hkg with rfl | htl
      · exact hacc (k', ps) (List.mem_cons_self _ _) q hq
      · exact ih (fun kg2 hkg2 => hacc kg2 (List.mem_cons_of_mem _ hkg2)) kg htl q hq

theorem groupsOK_groupGo (all : List Port) (l : List Port)
    (acc : List (String × List Port)) (hacc : GroupsOK all acc) :
    GroupsOK all (groupGo all l acc) := by
  induction l generalizing acc with
  | nil => exact hacc
  | cons p rest ih =>
    simp only [groupGo]
    cases hp : portPfx all p with
    | none => exact ih acc hacc
    | some k => exact ih (addGroup acc k p) (groupsOK_addGroup all acc k p hacc hp)

/-- C9: the prefix-groups formed by `_group_ports_by_prefix` are pairwise
disjoint — each port is appended to at most one group (first matching
pattern, with `break`, or the single fallback candidate), so no port can
contribute to two detected bus-interface records, even when two distinct
groups match the same bus definition. -/
theorem c9_groups_disjoint (ports : List Port) (k1 k2 : String)
    (g1 g2 : List Port)
    (h1 : (k1, g1) ∈ groupPortsByPrefix ports)
    (h2 : (k2, g2) ∈ groupPortsByPrefix ports)
    (hne : k1 ≠ k2) : ∀ q ∈ g1, q ∉ g2 := by
  have hok : GroupsOK ports (groupPortsByPrefix ports) :=
    groupsOK_groupGo ports ports [] (by intro kg hkg; simp at hkg)
  intro q hq1 hq2
  have e1 : portPfx ports q = some k1 := hok (k1, g1) h1 q hq1
  have e2 : portPfx ports q = some k2 := hok (k2, g2) h2 q hq2
  rw [e1] at e2
  exact hne (Option.some.inj e2)

/-- Witness for C9 on a concrete port list producing two prefix-groups
(`s_axi_` and `m_axi_`). -/
theorem c9_groups_disjoint_witness :
    (("s_axi_", [(⟨"s_axi_awaddr", .IN, .num 32, "t"⟩ : Port),
                 ⟨"s_axi_wdata", .IN, .num 32, "t"⟩]) ∈
        groupPortsByPrefix
          [⟨"s_axi_awaddr", .IN, .num 32, "t"⟩, ⟨"s_axi_wdata", .IN, .num 32, "t"⟩,
           ⟨"m_axi_awaddr", .OUT, .num 32, "t"⟩, ⟨"m_axi_wdata", .OUT, .num 32, "t"⟩]) ∧
    ((⟨"s_axi_awaddr", .IN, .num 32, "t"⟩ : Port) ∉
      [(⟨"m_axi_awaddr", .OUT, .num 32, "t"⟩ : Port), ⟨"m_axi_wdata", .OUT, .num 32, "t"⟩]) :=
  ⟨by decide,
   c9_groups_disjoint
     [⟨"s_axi_awaddr", .IN, .num 32, "t"⟩, ⟨"s_axi_wdata", .IN, .num 32, "t"⟩,
      ⟨"m_axi_awaddr", .OUT, .num 32, "t"⟩, ⟨"m_axi_wdata", .OUT, .num 32, "t"⟩]
     "s_axi_" "m_axi_"
     [⟨"s_axi_awaddr", .IN, .num 32, "t"⟩, ⟨"s_axi_wdata", .IN, .num 32, "t"⟩]
     [⟨"m_axi_awaddr", .OUT, .num 32, "t"⟩, ⟨"m_axi_wdata", .OUT, .num 32, "t"⟩]
     (by decide) (by decide) (by decide)
     (⟨"s_axi_awaddr", .IN, .num 32, "t"⟩ : Port) (by decide)⟩

/-! ### Bus matching: `BusInterfaceDetector._match_bus_type` and
`_detect_bus_mode` (`src/ipcraft/parser/hdl/bus_detector.py`, lines 184-282).
A bus definition is one entry of the loaded `bus_definitions.yml`: the
`busType.name` metadata and the ordered `ports` array with per-port
`direction` and `presence` (both optional keys, read with `.get`). -/

/-- One entry of a bus definition's `ports` array. -/
structure BusPortDef where
  name : String
  direction : Option String
  presence : Option String
deriving DecidableEq, Repr

/-- One bus definition of the library. -/
structure BusDef where
  busTypeName : String
  ports : List BusPortDef
deriving DecidableEq, Repr

/-- Bus interface mode enumeration (`BusInterfaceMode` in `model/bus.py`). -/
inductive BusInterfaceMode where
  | MASTER | SLAVE | SOURCE | SINK
deriving DecidableEq, Repr

/-- The fields of `BusInterface` that the detector produces. -/
structure BusInterface where
  name : String
  type : String
  mode : BusInterfaceMode
  physicalPfx : String
deriving DecidableEq, Repr

/-- The suffix under which a port is entered into the suffix map:
`port.name.lower()[len(prefix):].upper()`. -/
def sfxOf (pfx : String) (p : Port) : String :=
  upperStr (String.mk (p.nameLower.data.drop pfx.data.length))

/-- Python dict insertion with overwrite (keeps the original position). -/
def insertOv : List (String × Port) → String → Port → List (String × Port)
  | [], k, v => [(k, v)]
  | (k', v') :: rest, k, v =>
    if k' = k then (k, v) :: rest else (k', v') :: insertOv rest k v

/-- The `suffix_map` built from a prefix-group. -/
def mkSuffixMap (pfx : String) (ports : List Port) : List (String × Port) :=
  ports.foldl (fun m p => insertOv m (sfxOf pfx p) p) []

/-- Python dict lookup. -/
def lookupMap : List (String × Port) → String → Option Port
  | [], _ => none
  | (k', v) :: rest, k => if k' = k then some v else lookupMap rest k

/-- `port_def.get("direction", dflt)`. -/
def dirOr (pd : BusPortDef) (dflt : String) : String :=
  pd.direction.getD dflt

/-- Is the definition a streaming one?  `"axis" in bus_type_name or
"avalon_st" in bus_type_name` on the lowercased `busType.name`. -/
def isStreamingDef (d : BusDef) : Bool :=
  containsSub (lowerStr d.busTypeName) "axis" ||
  containsSub (lowerStr d.busTypeName) "avalon_st"

/-- Streaming branch of `_detect_bus_mode`: walk the definition's ports;
at a `TDATA`/`DATA` entry present in the suffix map, decide source/sink
from the actual direction; fall through otherwise; default `SOURCE`. -/
def streamGo (m : List (String × Port)) : List BusPortDef → BusInterfaceMode
  | [] => .SOURCE
  | pd :: rest =>
    if upperStr pd.name = "TDATA" ∨ upperStr pd.name = "DATA" then
      match lookupMap m (upperStr pd.name) with
      | some port =>
        if dirOr pd "out" = "out" ∧ port.direction = .OUT then .SOURCE
        else if dirOr pd "out" = "out" ∧ port.direction = .IN then .SINK
        else streamGo m rest
      | none => streamGo m rest
    else streamGo m rest

/-- Memory-mapped branch of `_detect_bus_mode`: the designated signals are
`AWREADY`/`ARREADY`/`READDATA`; a mismatching actual direction means the
interface is the slave side; default `SLAVE`. -/
def mmGo (m : List (String × Port)) : List BusPortDef → BusInterfaceMode
  | [] => .SLAVE
  | pd :: rest =>
    if upperStr pd.name = "AWREADY" ∨ upperStr pd.name = "ARREADY" ∨
        upperStr pd.name = "READDATA" then
      match lookupMap m (upperStr pd.name) with
      | some port =>
        if dirOr pd "in" = "in" ∧ port.direction = .OUT then .SLAVE
        else if dirOr pd "in" = "in" ∧ port.direction = .IN then .MASTER
        else mmGo m rest
      | none => mmGo m rest
    else mmGo m rest

/-- `_detect_bus_mode`. -/
def detectBusMode (d : BusDef) (m : List (String × Port)) : BusInterfaceMode :=
  if isStreamingDef d then streamGo m d.ports else mmGo m d.ports

/-- Names of the definition's required ports. -/
def requiredNames (d : BusDef) : List String :=
  (d.ports.filter (fun pd => pd.presence = some "required")).map (·.name)

/-- Names of the definition's optional ports. -/
def optionalNames (d : BusDef) : List String :=
  (d.ports.filter (fun pd => pd.presence = some "optional")).map (·.name)

/-- `required_matched`: how many required logical names occur as keys of
the suffix map. -/
def reqMatched (d : BusDef) (m : List (String × Port)) : Nat :=
  (requiredNames d).countP (fun n => (lookupMap m n).isSome)

/-- `optional_matched`. -/
def optMatched (d : BusDef) (m : List (String × Port)) : Nat :=
  (optionalNames d).countP (fun n => (lookupMap m n).isSome)

/-- `len(required_ports)`. -/
def totalReq (d : BusDef) : Nat :=
  (requiredNames d).length

/-- `score = required_matched * 10 + optional_matched`. -/
def scoreOf (d : BusDef) (m : List (String × Port)) : Nat :=
  reqMatched d m * 10 + optMatched d m

/-- The acceptance test of `_match_bus_type`: a positive number of required
ports and `required_matched / len(required_ports) >= 0.7` (the source
computes the ratio in floating point; for the small integer counts involved
this is exactly the rational comparison `10 * required_matched >=
7 * total`, and an empty required list gives ratio `0`, hence rejection). -/
def acceptedP (d : BusDef) (m : List (String × Port)) : Prop :=
  0 < totalReq d ∧ 7 * totalReq d ≤ 10 * reqMatched d m

instance (d : BusDef) (m : List (String × Port)) : Decidable (acceptedP d m) := by
  unfold acceptedP
  infer_instance

/-- Python `prefix.strip('_')`. -/
def stripUnders (s : String) : String :=
  String.mk (((s.data.dropWhile (· = '_')).reverse.dropWhile (· = '_')).reverse)

/-- The `BusInterface` built for a successful match. -/
def mkBI (pfx bn : String) (d : BusDef) (m : List (String × Port)) : BusInterface :=
  ⟨upperStr (stripUnders pfx), bn, detectBusMode d m, pfx⟩

/-- The best-candidate loop of `_match_bus_type`: keep the first definition
with a strictly higher score than every accepted one seen so far. -/
def matchGo (pfx : String) (m : List (String × Port)) :
    List (String × BusDef) → Nat → Option BusInterface → Option BusInterface
  | [], _, best => best
  | (bn, d) :: rest, bestScore, best =>
    if acceptedP d m then
      if bestScore < scoreOf d m then
        matchGo pfx m rest (scoreOf d m) (some (mkBI pfx bn d m))
      else matchGo pfx m rest bestScore best
    else matchGo pfx m rest bestScore best

/-- `_match_bus_type`: match a prefix-group against the bus definitions. -/
def matchBusType (pfx : String) (ports : List Port)
    (defs : List (String × BusDef)) : Option BusInterface :=
  matchGo pfx (mkSuffixMap pfx ports) defs 0 none

/-- `detect`: one bus interface per prefix-group that matches a definition. -/
def detect (defs : List (String × BusDef)) (ports : List Port) :
    List BusInterface :=
  (groupPortsByPrefix ports).filterMap (fun kg => matchBusType kg.1 kg.2 defs)

/-! ### Theorems for the mode inference (C2) -/

/-- C2 (counterexample): for a streaming definition whose designated
`TDATA` signal is absent from the prefix-group, `_detect_bus_mode` returns
`SOURCE`, not the `sink` the claim states (the memory-mapped default is
`SLAVE` as claimed; the streaming default in the source is
`return BusInterfaceMode.SOURCE`). -/
theorem c2_stream_default_counterexample :
    detectBusMode ⟨"axis", [⟨"TDATA", some "out", some "required"⟩]⟩ [] =
      .SOURCE ∧
    BusInterfaceMode.SOURCE ≠ BusInterfaceMode.SINK :=
  ⟨by decide, by decide⟩

theorem streamGo_absent (m : List (String × Port)) (l : List BusPortDef)
    (h : ∀ pd ∈ l, (upperStr pd.name = "TDATA" ∨ upperStr pd.name = "DATA") →
      lookupMap m (upperStr pd.name) = none) :
    streamGo m l = .SOURCE := by
  induction l with
  | nil => rfl
  | cons pd rest ih =>
    simp only [streamGo]
    by_cases hn : upperStr pd.name = "TDATA" ∨ upperStr pd.name = "DATA"
    · rw [if_pos hn, h pd (List.mem_cons_self _ _) hn]
      exact ih fun pd2 h2 => h pd2 (List.mem_cons_of_mem _ h2)
    · rw [if_neg hn]
      exact ih fun pd2 h2 => h pd2 (List.mem_cons_of_mem _ h2)

theorem mmGo_absent (m : List (String × Port)) (l : List BusPortDef)
    (h : ∀ pd ∈ l, (upperStr pd.name = "AWREADY" ∨ upperStr pd.name = "ARREADY" ∨
        upperStr pd.name = "READDATA") →
      lookupMap m (upperStr pd.name) = none) :
    mmGo m l = .SLAVE := by
  induction l with
  | nil => rfl
  | cons pd rest ih =>
    simp only [mmGo]
    by_cases hn : upperStr pd.name = "AWREADY" ∨ upperStr pd.name = "ARREADY" ∨
        upperStr pd.name = "READDATA"
    · rw [if_pos hn, h pd (List.mem_cons_self _ _) hn]
      exact ih fun pd2 h2 => h pd2 (List.mem_cons_of_mem _ h2)
    · rw [if_neg hn]
      exact ih fun pd2 h2 => h pd2 (List.mem_cons_of_mem _ h2)

/-- C2 (amended): when the designated mode-discriminating signal is absent
from the group's suffix map, `_detect_bus_mode` returns `SLAVE` for a
memory-mapped definition and `SOURCE` (not sink) for a streaming one. -/
theorem c2_default_modes (d : BusDef) (m : List (String × Port))
    (habs : ∀ pd ∈ d.ports,
      (upperStr pd.name = "TDATA" ∨ upperStr pd.name = "DATA" ∨
       upperStr pd.name = "AWREADY" ∨ upperStr pd.name = "ARREADY" ∨
       upperStr pd.name = "READDATA") →
      lookupMap m (upperStr pd.name) = none) :
    (isStreamingDef d = true → detectBusMode d m = .SOURCE) ∧
    (isStreamingDef d = false → detectBusMode d m = .SLAVE) := by
  constructor
  · intro hs
    rw [detectBusMode, if_pos hs]
    exact streamGo_absent m d.ports fun pd hpd hn =>
      habs pd hpd (by tauto)
  · intro hs
    rw [detectBusMode, if_neg (by simp [hs])]
    exact mmGo_absent m d.ports fun pd hpd hn =>
      habs pd hpd (by tauto)

/-- Witness for C2 (amended) on concrete streaming and memory-mapped
definitions with the designated signal absent. -/
theorem c2_default_modes_witness :
    (detectBusMode ⟨"axis", [⟨"TVALID", some "out", some "required"⟩]⟩ [] = .SOURCE) ∧
    (detectBusMode ⟨"axi4l", [⟨"AWADDR", some "in", some "required"⟩]⟩ [] = .SLAVE) :=
  ⟨(c2_default_modes ⟨"axis", [⟨"TVALID", some "out", some "required"⟩]⟩ []
      (by decide)).1 (by decide),
   (c2_default_modes ⟨"axi4l", [⟨"AWADDR", some "in", some "required"⟩]⟩ []
      (by decide)).2 (by decide)⟩

/-! ### Theorems for the scoring and best-candidate selection (C3) -/

theorem accepted_score_ge (d : BusDef) (m : List (String × Port))
    (h : acceptedP d m) : 10 ≤ scoreOf d m := by
  obtain ⟨h1, h2⟩ := h
  unfold scoreOf
  omega

theorem matchGo_spec (pfx : String) (m : List (String × Port)) :
    ∀ (defs : List (String × BusDef)) (s : Nat) (b : Option BusInterface),
    (matchGo pfx m defs s b = b ∧
      ∀ bn d, (bn, d) ∈ defs → acceptedP d m → scoreOf d m ≤ s) ∨
    (∃ bn d, (bn, d) ∈ defs ∧ acceptedP d m ∧ s < scoreOf d m ∧
      matchGo pfx m defs s b = some (mkBI pfx bn d m) ∧
      ∀ bn' d', (bn', d') ∈ defs → acceptedP d' m →
        scoreOf d' m ≤ scoreOf d m) := by
  intro defs
  induction defs with
  | nil =>
    intro s b
    left
    exact ⟨rfl, by simp⟩
  | cons hd rest ih =>
    obtain ⟨bn, d⟩ := hd
    intro s b
    by_cases hacc : acceptedP d m
    · by_cases hlt : s < scoreOf d m
      · rcases ih (scoreOf d m) (some (mkBI pfx bn d m)) with ⟨heq, hbnd⟩ | hex
        · right
          refine ⟨bn, d, List.mem_cons_self _ _, hacc, hlt, ?_, ?_⟩
          · rw [matchGo, if_pos hacc, if_pos hlt]
            exact heq
          · intro bn' d' hmem hacc'
            rcases List.mem_cons.mp hmem with heq' | hmem'
            · rw [(Prod.mk.injEq _ _ _ _).mp heq' |>.2]
            · exact hbnd bn' d' hmem' hacc'
        · obtain ⟨bn1, d1, hmem1, hacc1, hlt1, heq1, hbnd1⟩ := hex
          right
          refine ⟨bn1, d1, List.mem_cons_of_mem _ hmem1, hacc1, by omega, ?_, ?_⟩
          · rw [matchGo, if_pos hacc, if_pos hlt]
            exact heq1
          · intro bn' d' hmem hacc'
            rcases List.mem_cons.mp hmem with heq' | hmem'
            · have : d' = d := ((Prod.mk.injEq _ _ _ _).mp heq').2
              subst this
              omega
            · exact hbnd1 bn' d' hmem' hacc'
      · rcases ih s b with ⟨heq, hbnd⟩ | hex
        · left
          refine ⟨?_, ?_⟩
          · rw [matchGo, if_pos hacc, if_neg hlt]
            exact heq
          · intro bn' d' hmem hacc'
            rcases List.mem_cons.mp hmem with heq' | hmem'
            · have : d' = d := ((Prod.mk.injEq _ _ _ _).mp heq').2
              subst this
              omega
            · exact hbnd bn' d' hmem' hacc'
        · obtain ⟨bn1, d1, hmem1, hacc1, hlt1, heq1, hbnd1⟩ := hex
          right
          refine ⟨bn1, d1, List.mem_cons_of_mem _ hmem1, hacc1, hlt1, ?_, ?_⟩
          · rw [matchGo, if_pos hacc, if_neg hlt]
            exact heq1
          · intro bn' d' hmem hacc'
            rcases List.mem_cons.mp hmem with heq' | hmem'
            · have : d' = d := ((Prod.mk.injEq _ _ _ _).mp heq').2
              subst this
              omega
            · exact hbnd1 bn' d' hmem' hacc'
    · rcases ih s b with ⟨heq, hbnd⟩ | hex
      · left
        refine ⟨?_, ?_⟩
        · rw [matchGo, if_neg hacc]
          exact heq
        · intro bn' d' hmem hacc'
          rcases List.mem_cons.mp hmem with heq' | hmem'
          · have : d' = d := ((Prod.mk.injEq _ _ _ _).mp heq').2
            subst this
            exact absurd hacc' hacc
          · exact hbnd bn' d' hmem' hacc'
      · obtain ⟨bn1, d1, hmem1, hacc1, hlt1, heq1, hbnd1⟩ := hex
        right
        refine ⟨bn1, d1, List.mem_cons_of_mem _ hmem1, hacc1, hlt1, ?_, ?_⟩
        · rw [matchGo, if_neg hacc]
          exact heq1
        · intro bn' d' hmem hacc'
          rcases List.mem_cons.mp hmem with heq' | hmem'
          · have : d' = d := ((Prod.mk.injEq _ _ _ _).mp heq').2
            subst this
            exact absurd hacc' hacc
          · exact hbnd1 bn' d' hmem' hacc'

/-- C3: scoring and selection of `_match_bus_type`.  Part (i): for a
definition with at least one required port, the candidate passes the
threshold test exactly when `required_matched / total_required` is not
below `7/10`.  Part (ii): a `None` result means no definition passed the
test.  Part (iii): a returned interface comes from an accepted definition
whose score `required_matched * 10 + optional_matched` is maximal among
all accepted definitions (suffixes are matched upper-cased with the prefix
stripped, per `mkSuffixMap`). -/
theorem c3_match_scoring (pfx : String) (ports : List Port)
    (defs : List (String × BusDef)) :
    (∀ bn d, (bn, d) ∈ defs → 0 < totalReq d →
      (acceptedP d (mkSuffixMap pfx ports) ↔
        ¬((reqMatched d (mkSuffixMap pfx ports) : ℚ) / (totalReq d : ℚ) <
            7 / 10))) ∧
    (matchBusType pfx ports defs = none →
      ∀ bn d, (bn, d) ∈ defs → ¬ acceptedP d (mkSuffixMap pfx ports)) ∧
    (∀ bi, matchBusType pfx ports defs = some bi →
      ∃ d, (bi.type, d) ∈ defs ∧ acceptedP d (mkSuffixMap pfx ports) ∧
        ∀ bn' d', (bn', d') ∈ defs → acceptedP d' (mkSuffixMap pfx ports) →
          scoreOf d' (mkSuffixMap pfx ports) ≤ scoreOf d (mkSuffixMap pfx ports)) := by
  set m := mkSuffixMap pfx ports with hm
  refine ⟨?_, ?_, ?_⟩
  · intro bn d _ htot
    have ht : (0 : ℚ) < (totalReq d : ℚ) := by exact_mod_cast htot
    rw [div_lt_div_iff₀ ht (by norm_num : (0 : ℚ) < 10), not_lt]
    constructor
    · intro h
      have h1 := h.2
      have h2 : (7 * totalReq d : ℚ) ≤ (10 * reqMatched d m : ℚ) := by
        exact_mod_cast h1
      push_cast at h2 ⊢
      linarith
    · intro h
      refine ⟨htot, ?_⟩
      have : (7 : ℚ) * (totalReq d : ℚ) ≤ (reqMatched d m : ℚ) * 10 := h
      have h2 : (7 * totalReq d : ℚ) ≤ (10 * reqMatched d m : ℚ) := by linarith
      exact_mod_cast h2
  · intro hnone bn d hmem hacc
    rcases matchGo_spec pfx m defs 0 none with ⟨_, hbnd⟩ | hex
    · have := hbnd bn d hmem hacc
      have := accepted_score_ge d m hacc
      omega
    · obtain ⟨bn1, d1, _, _, _, heq1, _⟩ := hex
      rw [matchBusType, ← hm] at hnone
      rw [hnone] at heq1
      cases heq1
  · intro bi hbi
    rcases matchGo_spec pfx m defs 0 none with ⟨heq, _⟩ | hex
    · rw [matchBusType, ← hm] at hbi
      rw [heq] at hbi
      cases hbi
    · obtain ⟨bn1, d1, hmem1, hacc1, _, heq1, hbnd1⟩ := hex
      rw [matchBusType, ← hm] at hbi
      rw [heq1] at hbi
      have hbn : bi.type = bn1 := by
        rw [← Option.some.inj hbi]
        rfl
      refine ⟨d1, ?_, hacc1, fun bn' d' hmem' hacc' => hbnd1 bn' d' hmem' hacc'⟩
      rw [hbn]
      exact hmem1

/-- Witness for C3 on a concrete prefix-group and one-definition library. -/
theorem c3_match_scoring_witness :
    ∃ d, (("AXI4L", d) ∈
        [("AXI4L", (⟨"axi4l", [⟨"AWADDR", some "in", some "required"⟩,
                               ⟨"WDATA", some "in", some "required"⟩,
                               ⟨"AWREADY", some "in", some "required"⟩]⟩ : BusDef))]) ∧
      acceptedP d (mkSuffixMap "s_axi_"
        [⟨"s_axi_awaddr", .IN, .num 32, "t"⟩, ⟨"s_axi_wdata", .IN, .num 32, "t"⟩,
         ⟨"s_axi_awready", .OUT, .num 1, "t"⟩]) ∧
      ∀ bn' d', (bn', d') ∈
          [("AXI4L", (⟨"axi4l", [⟨"AWADDR", some "in", some "required"⟩,
                                 ⟨"WDATA", some "in", some "required"⟩,
                                 ⟨"AWREADY", some "in", some "required"⟩]⟩ : BusDef))] →
        acceptedP d' (mkSuffixMap "s_axi_"
          [⟨"s_axi_awaddr", .IN, .num 32, "t"⟩, ⟨"s_axi_wdata", .IN, .num 32, "t"⟩,
           ⟨"s_axi_awready", .OUT, .num 1, "t"⟩]) →
        scoreOf d' (mkSuffixMap "s_axi_"
          [⟨"s_axi_awaddr", .IN, .num 32, "t"⟩, ⟨"s_axi_wdata", .IN, .num 32, "t"⟩,
           ⟨"s_axi_awready", .OUT, .num 1, "t"⟩]) ≤
        scoreOf d (mkSuffixMap "s_axi_"
          [⟨"s_axi_awaddr", .IN, .num 32, "t"⟩, ⟨"s_axi_wdata", .IN, .num 32, "t"⟩,
           ⟨"s_axi_awready", .OUT, .num 1, "t"⟩]) :=
  (c3_match_scoring "s_axi_"
    [⟨"s_axi_awaddr", .IN, .num 32, "t"⟩, ⟨"s_axi_wdata", .IN, .num 32, "t"⟩,
     ⟨"s_axi_awready", .OUT, .num 1, "t"⟩]
    [("AXI4L", ⟨"axi4l", [⟨"AWADDR", some "in", some "required"⟩,
                          ⟨"WDATA", some "in", some "required"⟩,
                          ⟨"AWREADY", some "in", some "required"⟩]⟩)]).2.2
    ⟨"S_AXI", "AXI4L", .SLAVE, "s_axi_"⟩ (by decide)

/-! ### Width resolution: `VHDLParser._create_port_from_data`
(`src/ipcraft/parser/hdl/vhdl_parser.py`, lines 270-326) and
`VerilogParser._create_port` (`verilog_parser.py`, lines 265-295). -/

/-- One anchored attempt of the pattern `\((\d+)\s+downto\s+(\d+)\)`
(`re.IGNORECASE` affects only the literal `downto`): an opening
parenthesis, a non-empty greedy digit run, non-empty whitespace, `downto`
case-insensitively, non-empty whitespace, a non-empty digit run and a
closing parenthesis. -/
def rangeAfterParen (rest : List Char) : Option (Nat × Nat) :=
  if ((spanP Char.isDigit rest).1).isEmpty then none
  else if ((spanP isPyWs (spanP Char.isDigit rest).2).1).isEmpty then none
  else
    match matchCaseless "downto".data (spanP isPyWs (spanP Char.isDigit rest).2).2 with
    | none => none
    | some r3 =>
      if ((spanP isPyWs r3).1).isEmpty then none
      else if ((spanP Char.isDigit (spanP isPyWs r3).2).1).isEmpty then none
      else
        match (spanP Char.isDigit (spanP isPyWs r3).2).2 with
        | ')' :: _ =>
          some (digitsVal (spanP Char.isDigit rest).1,
                digitsVal (spanP Char.isDigit (spanP isPyWs r3).2).1)
        | _ => none

def tryRangeAt : List Char → Option (Nat × Nat)
  | [] => none
  | c :: rest => if c = '(' then rangeAfterParen rest else none

/-- `re.search` of the range pattern: leftmost match wins. -/
def findDowntoRange : List Char → Option (Nat × Nat)
  | [] => none
  | c :: rest =>
    match tryRangeAt (c :: rest) with
    | some r => some r
    | none => findDowntoRange rest

/-- The width computed by `_create_port_from_data`: starts at 1; only when
the lowercased type contains `"vector"` and the range pattern matches with
two integer literals does it become `abs(high - low) + 1`; a parameterized
range falls through (`pass`) leaving the default 1. -/
def vhdlWidthOfL (t : List Char) : Nat :=
  if hasSubList "vector".data (t.map Char.toLower) then
    match findDowntoRange t with
    | some (h, l) => (max h l - min h l) + 1
    | none => 1
  else 1

/-- Width resolution on the type string. -/
def vhdlWidthOf (t : String) : Nat :=
  vhdlWidthOfL t.data

/-- `_create_port_from_data` on the extracted name, direction string and
type string (the guarded exceptions of the source cannot fire here: the
computed width is always at least 1). -/
def createPortFromData (name dir t : String) : Port :=
  ⟨name, PortDirection.fromString (lowerStr dir), .num (vhdlWidthOf t), t⟩

/-- `VerilogParser._create_port`: width `abs(msb - lsb) + 1` when both
bounds were parsed, else the scalar default 1. -/
def verilogCreatePort (name dir : String) (msb lsb : Option Nat) : Port :=
  match msb, lsb with
  | some m, some l =>
    ⟨name, PortDirection.fromString dir, .num ((max m l - min m l) + 1),
     String.mk ('[' :: (Nat.toDigits 10 m) ++ ':' :: (Nat.toDigits 10 l) ++ [']'])⟩
  | _, _ => ⟨name, PortDirection.fromString dir, .num 1, "std_logic"⟩

/-! ### Scanner lemmas -/

theorem listStartsWith_append (pat l r : List Char)
    (h : listStartsWith pat l = true) : listStartsWith pat (l ++ r) = true := by
  induction pat generalizing l with
  | nil => rfl
  | cons pc ps ih =>
    cases l with
    | nil => cases h
    | cons c cs =>
      simp only [listStartsWith, Bool.and_eq_true] at h
      simp only [List.cons_append, listStartsWith, Bool.and_eq_true]
      exact ⟨h.1, ih cs h.2⟩

theorem hasSubList_append (pat l r : List Char)
    (h : hasSubList pat l = true) : hasSubList pat (l ++ r) = true := by
  induction l with
  | nil =>
    cases pat with
    | nil =>
      cases r with
      | nil => rfl
      | cons c cs => simp [hasSubList, listStartsWith]
    | cons pc ps => cases h
  | cons c cs ih =>
    simp only [hasSubList, Bool.or_eq_true] at h
    simp only [List.cons_append, hasSubList, Bool.or_eq_true]
    rcases h with h | h
    · exact Or.inl (listStartsWith_append pat (c :: cs) r h)
    · exact Or.inr (ih h)

theorem spanP_exact (p : Char → Bool) (l r : List Char)
    (hl : ∀ c ∈ l, p c = true)
    (hr : ∀ c cs, r = c :: cs → p c = false) :
    spanP p (l ++ r) = (l, r) := by
  induction l with
  | nil =>
    cases r with
    | nil => rfl
    | cons c cs =>
      simp only [List.nil_append, spanP, hr c cs rfl, Bool.false_eq_true,
        if_false]
  | cons a l2 ih =>
    simp only [List.cons_append, spanP, hl a (List.mem_cons_self _ _), if_true]
    rw [show l2.append r = l2 ++ r from rfl,
      ih fun c hc => hl c (List.mem_cons_of_mem _ hc)]

theorem matchCaseless_self (pat : List Char) (r : List Char)
    (h : ∀ c ∈ pat, c.toLower = c) :
    matchCaseless pat (pat ++ r) = some r := by
  induction pat with
  | nil => rfl
  | cons pc ps ih =>
    simp only [List.cons_append, matchCaseless,
      h pc (List.mem_cons_self _ _), if_pos rfl]
    exact ih fun c hc => h c (List.mem_cons_of_mem _ hc)

theorem findDowntoRange_skip (base rest : List Char)
    (h : ∀ c ∈ base, c ≠ '(') :
    findDowntoRange (base ++ rest) = findDowntoRange rest := by
  induction base with
  | nil => rfl
  | cons c cs ih =>
    simp only [List.cons_append, findDowntoRange]
    rw [show tryRangeAt (c :: cs.append rest) = none by
      simp only [tryRangeAt]
      rw [if_neg (h c (List.mem_cons_self _ _))]]
    exact ih fun c2 hc2 => h c2 (List.mem_cons_of_mem _ hc2)

theorem not_ws_of_digit (c : Char) (h : c.isDigit = true) : isPyWs c = false := by
  by_contra hw
  rw [Bool.not_eq_false] at hw
  simp only [isPyWs, Bool.or_eq_true, decide_eq_true_eq] at hw
  rcases hw with ((((h1 | h1) | h1) | h1) | h1) | h1 <;>
    (subst h1; exact absurd h (by decide))

theorem tryRangeAt_literal (s1 s2 tail : List Char)
    (h1 : s1 ≠ [] ∧ ∀ c ∈ s1, c.isDigit = true)
    (h2 : s2 ≠ [] ∧ ∀ c ∈ s2, c.isDigit = true) :
    tryRangeAt ('(' :: (s1 ++ ' ' :: ("downto".data ++ ' ' :: (s2 ++ ')' :: tail)))) =
      some (digitsVal s1, digitsVal s2) := by
  obtain ⟨c2, cs2, rfl⟩ := List.exists_cons_of_ne_nil h2.1
  have hnotws : isPyWs c2 = false :=
    not_ws_of_digit c2 (h2.2 c2 (List.mem_cons_self _ _))
  have hd1 : spanP Char.isDigit
      (s1 ++ ' ' :: ("downto".data ++ ' ' :: (c2 :: cs2 ++ ')' :: tail))) =
      (s1, ' ' :: ("downto".data ++ ' ' :: (c2 :: cs2 ++ ')' :: tail))) :=
    spanP_exact _ _ _ h1.2
      (by intro c cs hc; injection hc with hc1 _; rw [← hc1]; rfl)
  have hw1 : spanP isPyWs
      (' ' :: ("downto".data ++ ' ' :: (c2 :: cs2 ++ ')' :: tail))) =
      ([' '], "downto".data ++ ' ' :: (c2 :: cs2 ++ ')' :: tail)) := rfl
  have hm : matchCaseless "downto".data
      ("downto".data ++ ' ' :: (c2 :: cs2 ++ ')' :: tail)) =
      some (' ' :: (c2 :: cs2 ++ ')' :: tail)) :=
    matchCaseless_self _ _ (by decide)
  have hw2 : spanP isPyWs (' ' :: (c2 :: cs2 ++ ')' :: tail)) =
      ([' '], c2 :: cs2 ++ ')' :: tail) := by
    simp only [spanP, show isPyWs ' ' = true from rfl, if_true, hnotws,
      Bool.false_eq_true, if_false]
    rfl
  have hd2 : spanP Char.isDigit (c2 :: cs2 ++ ')' :: tail) =
      (c2 :: cs2, ')' :: tail) := by
    have hx := spanP_exact Char.isDigit (c2 :: cs2) (')' :: tail) h2.2
      (by intro c cs hc; injection hc with hc1 _; rw [← hc1]; rfl)
    simpa using hx
  obtain ⟨c1, cs1, rfl⟩ := List.exists_cons_of_ne_nil h1.1
  show tryRangeAt _ = _
  rw [tryRangeAt]
  rw [if_pos rfl]
  rw [rangeAfterParen, hd1]
  rw [if_neg (by simp)]
  simp only [hw1]
  rw [if_neg (by simp)]
  simp only [hm, hw2]
  rw [if_neg (by simp)]
  simp only [hd2]
  rw [if_neg (by simp)]

theorem findDowntoRange_literal (base s1 s2 tail : List Char)
    (hbase : ∀ c ∈ base, c ≠ '(')
    (h1 : s1 ≠ [] ∧ ∀ c ∈ s1, c.isDigit = true)
    (h2 : s2 ≠ [] ∧ ∀ c ∈ s2, c.isDigit = true) :
    findDowntoRange
      (base ++ '(' :: (s1 ++ ' ' :: ("downto".data ++ ' ' :: (s2 ++ ')' :: tail)))) =
      some (digitsVal s1, digitsVal s2) := by
  rw [findDowntoRange_skip base _ hbase, findDowntoRange,
    tryRangeAt_literal s1 s2 tail h1 h2]

/-- Shared helper: with no literal `downto` range in the type string, the
resolved width is the default 1 (whether or not the type mentions
`vector`). -/
theorem vhdlWidthOf_no_range (t : String)
    (h : findDowntoRange t.data = none) : vhdlWidthOf t = 1 := by
  by_cases hv : hasSubList "vector".data (t.data.map Char.toLower) = true
  · rw [vhdlWidthOf, vhdlWidthOfL, if_pos hv, h]
  · rw [vhdlWidthOf, vhdlWidthOfL, if_neg hv]

/-- C1 (counterexample): for the Scenario-3 port type
`std_logic_vector(WIDTH-1 downto 0)` the parser produces the numeric
default width 1, not the symbolic `"WIDTH"`: the source's range regex
requires integer literals and otherwise `pass`es, leaving `width = 1`
(the repository's own test `test_parameterized_width_defaults_to_one`
asserts this behavior). -/
theorem c1_symbolic_width_counterexample :
    (createPortFromData "data" "out" "std_logic_vector(WIDTH-1 downto 0)").width =
      .num 1 ∧
    PortWidth.num 1 ≠ PortWidth.sym "WIDTH" :=
  ⟨by decide, by decide⟩

/-- C1 (amended): for a port whose type string references a generic as a
range bound (so the range pattern finds no pair of integer literals),
`_create_port_from_data` leaves `Port.width` at the numeric default 1; the
generic expression survives only in the preserved type string. -/
theorem c1_param_width_default (name dir t : String)
    (h : findDowntoRange t.data = none) :
    (createPortFromData name dir t).width = .num 1 ∧
    (createPortFromData name dir t).type = t := by
  refine ⟨?_, rfl⟩
  show PortWidth.num (vhdlWidthOf t) = .num 1
  rw [vhdlWidthOf_no_range t h]

/-- Witness for C1 (amended) at the Scenario-3 type string. -/
theorem c1_param_width_default_witness :
    (createPortFromData "data" "out" "std_logic_vector(WIDTH-1 downto 0)").width =
      .num 1 ∧
    (createPortFromData "data" "out" "std_logic_vector(WIDTH-1 downto 0)").type =
      "std_logic_vector(WIDTH-1 downto 0)" :=
  c1_param_width_default "data" "out" "std_logic_vector(WIDTH-1 downto 0)" (by decide)

/-- C6 (counterexample): the port type `unsigned(7 downto 0)` carries a
literal `(HIGH downto LOW)` range, yet the resolved width is 1, not
`7 - 0 + 1 = 8`: the VHDL width computation runs only when the type string
contains `"vector"`. -/
theorem c6_width_counterexample :
    (createPortFromData "q" "out" "unsigned(7 downto 0)").width = .num 1 ∧
    (1 : Nat) ≠ 7 - 0 + 1 :=
  ⟨by decide, by decide⟩

/-- C6 (amended): (i) for a VHDL type of the form `base(H downto L)` whose
base contains `vector` (case-insensitively) and whose bounds are integer
literals, the resolved width is `|H - L| + 1`; (ii) a type with no literal
`downto` range resolves to width 1; (iii) a Verilog `[MSB:LSB]` range with
both integer bounds resolves to `|MSB - LSB| + 1`; (iv) a scalar Verilog
port resolves to width 1. -/
theorem c6_width_resolution :
    (∀ (base s1 s2 : List Char)
       (hbase : ∀ c ∈ base, c ≠ '(')
       (hvec : hasSubList "vector".data (base.map Char.toLower) = true)
       (h1 : s1 ≠ [] ∧ ∀ c ∈ s1, c.isDigit = true)
       (h2 : s2 ≠ [] ∧ ∀ c ∈ s2, c.isDigit = true),
       vhdlWidthOfL (base ++ '(' :: (s1 ++ ' ' :: ("downto".data ++ ' ' :: (s2 ++ [')'])))) =
         (max (digitsVal s1) (digitsVal s2) - min (digitsVal s1) (digitsVal s2)) + 1) ∧
    (∀ t : String, findDowntoRange t.data = none → vhdlWidthOf t = 1) ∧
    (∀ (name dir : String) (m l : Nat),
       (verilogCreatePort name dir (some m) (some l)).width =
         .num ((max m l - min m l) + 1)) ∧
    (∀ name dir : String, (verilogCreatePort name dir none none).width = .num 1) := by
  refine ⟨?_, fun t h => vhdlWidthOf_no_range t h, fun _ _ _ _ => rfl, fun _ _ => rfl⟩
  intro base s1 s2 hbase hvec h1 h2
  have hv2 : hasSubList "vector".data
      ((base ++ '(' :: (s1 ++ ' ' :: ("downto".data ++ ' ' :: (s2 ++ [')'])))).map
        Char.toLower) = true := by
    rw [List.map_append]
    exact hasSubList_append _ _ _ hvec
  rw [vhdlWidthOfL, if_pos hv2,
    findDowntoRange_literal base s1 s2 [] hbase h1 h2]

/-- Witness for C6 (amended) at `std_logic_vector(7 downto 0)` and a
Verilog `[7:0]` range. -/
theorem c6_width_resolution_witness :
    vhdlWidthOfL ("std_logic_vector".data ++
        '(' :: (['7'] ++ ' ' :: ("downto".data ++ ' ' :: (['0'] ++ [')'])))) =
      (max (digitsVal ['7']) (digitsVal ['0']) -
        min (digitsVal ['7']) (digitsVal ['0'])) + 1 ∧
    (verilogCreatePort "data" "output" (some 7) (some 0)).width = .num ((max 7 0 - min 7 0) + 1) :=
  ⟨(c6_width_resolution).1 "std_logic_vector".data ['7'] ['0']
      (by decide) (by decide) ⟨by decide, by decide⟩ ⟨by decide, by decide⟩,
   (c6_width_resolution).2.2.1 "data" "output" 7 0⟩

/-! ### Fallback parsing: `VHDLParser._parse_with_regex`
(`src/ipcraft/parser/hdl/vhdl_parser.py`, lines 382-512) and
`VHDLParser._remove_comments` (line 377).  Every regex of the source is
embedded as a scanner with the same leftmost/greedy/lazy semantics; the
notes at each definition record which pattern it models. -/

mutual

/-- `re.sub(r"--.*$", "", text, flags=re.MULTILINE)`: drop everything from
each `--` to the end of its line (the newline itself survives). -/
def stripLC : List Char → List Char
  | [] => []
  | '-' :: '-' :: rest => skipToNL rest
  | c :: rest => c :: stripLC rest

/-- Helper of `stripLC`: inside a line comment, skip to the newline. -/
def skipToNL : List Char → List Char
  | [] => []
  | '\n' :: rest => '\n' :: stripLC rest
  | _ :: rest => skipToNL rest

end

/-- `_remove_comments` on strings. -/
def removeComments (s : String) : String :=
  String.mk (stripLC s.data)

/-- One anchored attempt of `entity\s+(\w+)\s+is` (`IGNORECASE`):
returns the captured name. -/
def entityNameAt (cs : List Char) : Option (List Char) :=
  match matchCaseless "entity".data cs with
  | none => none
  | some r1 =>
    if ((spanP isPyWs r1).1).isEmpty then none
    else
      let nm := spanP isWordChar (spanP isPyWs r1).2
      if nm.1.isEmpty then none
      else if ((spanP isPyWs nm.2).1).isEmpty then none
      else
        match matchCaseless "is".data (spanP isPyWs nm.2).2 with
        | none => none
        | some _ => some nm.1

/-- `re.search` of the entity-name pattern: leftmost match. -/
def findEntityName : List Char → Option (List Char)
  | [] => none
  | c :: rest =>
    match entityNameAt (c :: rest) with
    | some nm => some nm
    | none => findEntityName rest

/-- The tail of the entity pattern after the lazy body group:
`\s*end\s+(?:entity\s+)?NAME?` where the final `?` of the source's f-string
makes the last character of the escaped name optional, so only
`name.dropLast` must match (case-insensitively); the optional
`entity\s+` group is tried first and given up on failure. -/
def tailMatch (nm : List Char) (cs : List Char) : Bool :=
  match matchCaseless "end".data (spanP isPyWs cs).2 with
  | none => false
  | some r2 =>
    if ((spanP isPyWs r2).1).isEmpty then false
    else
      let afterWs := (spanP isPyWs r2).2
      let nmPat := (nm.dropLast).map Char.toLower
      (match matchCaseless "entity".data afterWs with
       | some r3 =>
         if ((spanP isPyWs r3).1).isEmpty then false
         else (matchCaseless nmPat (spanP isPyWs r3).2).isSome
       | none => false) ||
      (matchCaseless nmPat afterWs).isSome

/-- The lazy `(.*?)` body (with `DOTALL`): the shortest prefix after which
the tail pattern matches. -/
def findBody (nm : List Char) : List Char → Option (List Char)
  | [] => if tailMatch nm [] then some [] else none
  | c :: rest =>
    if tailMatch nm (c :: rest) then some []
    else (findBody nm rest).map (c :: ·)

/-- One anchored attempt of
`entity\s+NAME\s+is\s+(.*?)\s*end\s+(?:entity\s+)?NAME?`. -/
def entityBodyAt (nm : List Char) (cs : List Char) : Option (List Char) :=
  match matchCaseless "entity".data cs with
  | none => none
  | some r1 =>
    if ((spanP isPyWs r1).1).isEmpty then none
    else
      match matchCaseless (nm.map Char.toLower) (spanP isPyWs r1).2 with
      | none => none
      | some r2 =>
        if ((spanP isPyWs r2).1).isEmpty then none
        else
          match matchCaseless "is".data (spanP isPyWs r2).2 with
          | none => none
          | some r3 =>
            if ((spanP isPyWs r3).1).isEmpty then none
            else findBody nm (spanP isPyWs r3).2

/-- `re.search` of the full entity pattern: leftmost matching position. -/
def findEntityBody (nm : List Char) : List Char → Option (List Char)
  | [] => none
  | c :: rest =>
    match entityBodyAt nm (c :: rest) with
    | some b => some b
    | none => findEntityBody nm rest

/-- Python `str.find` as a suffix: the input from the first occurrence of
the literal pattern on. -/
def dropToLit (pat : List Char) : List Char → Option (List Char)
  | [] => if listStartsWith pat [] then some [] else none
  | c :: rest =>
    if listStartsWith pat (c :: rest) then some (c :: rest) else dropToLit pat rest

/-- The depth-counted parenthesis matcher of the source (`paren_count`):
collect the characters between the already-consumed opening parenthesis
and its matching closing one; `none` when unbalanced (`paren_end == -1`). -/
def grabParen : Nat → List Char → List Char → Option (List Char)
  | _, [], _ => none
  | d, '(' :: rest, acc => grabParen (d + 1) rest (acc ++ ['('])
  | 0, ')' :: _, acc => some acc
  | d + 1, ')' :: rest, acc => grabParen d rest (acc ++ [')'])
  | d, c :: rest, acc => grabParen d rest (acc ++ [c])

/-- Port-section extraction: `entity_body.find("port")` (case-sensitive),
then the first `(` from there, then depth-counted matching. -/
def extractPortsText (body : List Char) : Option (List Char) :=
  match dropToLit "port".data body with
  | none => none
  | some atPort =>
    match dropToLit ['('] atPort with
    | none => none
    | some atParen =>
      match atParen with
      | '(' :: rest => grabParen 0 rest []
      | _ => none

/-- Python `split` on a single character (`re.split(r"\s*;\s*", ...)` splits
exactly at the semicolons; the whitespace the regex absorbs around them is
removed again by the `strip()` each part undergoes, so splitting at the
separator and trimming is equivalent). -/
def splitOnChar (sep : Char) : List Char → List (List Char)
  | [] => [[]]
  | c :: rest =>
    let r := splitOnChar sep rest
    if c = sep then [] :: r
    else
      match r with
      | [] => [[c]]
      | h :: t => (c :: h) :: t

/-- First keyword of the list that starts the input case-insensitively
(a regex alternation of literals, in order). -/
def tryKw : List String → List Char → Option (String × List Char)
  | [], _ => none
  | kw :: kws, cs =>
    match matchCaseless kw.data cs with
    | some r => some (kw, r)
    | none => tryKw kws cs

/-- The direction alternation `(in|out|inout|buffer|linkage)` followed by
`\s+(.+)` of the per-item pattern: each alternative is tried in order and
given up when no whitespace or no type text follows (the regex engine
backtracks to the next alternative).  On a stripped item the greedy `\s+`
and the non-empty `(.+)` amount to: non-empty whitespace, then a non-empty
remainder, which becomes the type text. -/
def tryDirGo : List String → List Char → Option (String × List Char)
  | [], _ => none
  | kw :: kws, cs =>
    match matchCaseless kw.data cs with
    | some r =>
      if ((spanP isPyWs r).1).isEmpty then tryDirGo kws cs
      else if ((spanP isPyWs r).2).isEmpty then tryDirGo kws cs
      else some (kw, (spanP isPyWs r).2)
    | none => tryDirGo kws cs

/-- The direction dictionary of `_parse_with_regex` (`buffer` maps to out,
`linkage` to in; the `.get(..., IN)` default is unreachable because the
regex only matches the five keys). -/
def dirOfKw (kw : String) : PortDirection :=
  if kw = "in" then .IN
  else if kw = "out" then .OUT
  else if kw = "inout" then .INOUT
  else if kw = "buffer" then .OUT
  else if kw = "linkage" then .IN
  else .IN

/-- One anchored attempt (`re.match`) of the loose per-item pattern
`(\w+)\s*:\s*(in|out|inout|buffer|linkage)\s+(.+)` with
`IGNORECASE | DOTALL`: returns (name, direction, type text). -/
def parsePortItem (item : List Char) : Option (List Char × PortDirection × List Char) :=
  let nm := spanP isWordChar item
  if nm.1.isEmpty then none
  else
    match (spanP isPyWs nm.2).2 with
    | ':' :: r2 =>
      match tryDirGo ["in", "out", "inout", "buffer", "linkage"] (spanP isPyWs r2).2 with
      | some (kw, t) => some (nm.1, dirOfKw kw, t)
      | none => none
    | _ => none

/-- The lazy `\((.*?)\)` of the width calculation: content of the first
parenthesis pair — the first `(` that is followed by a `)`, up to that
first `)`. -/
def upToClose : List Char → Option (List Char)
  | [] => none
  | ')' :: _ => some []
  | c :: rest => (upToClose rest).map (c :: ·)

/-- `re.search(r"\((.*?)\)", p_type)`. -/
def parenContent : List Char → Option (List Char)
  | [] => none
  | '(' :: rest => upToClose rest
  | _ :: rest => parenContent rest

/-- One anchored attempt of `(\d+)\s+downto\s+(\d+)` — case-SENSITIVE:
the fallback's inner search carries no `re.IGNORECASE` flag. -/
def tryDowntoAt (cs : List Char) : Option (Nat × Nat) :=
  let d1 := spanP Char.isDigit cs
  if d1.1.isEmpty then none
  else if ((spanP isPyWs d1.2).1).isEmpty then none
  else if listStartsWith "downto".data (spanP isPyWs d1.2).2 = false then none
  else
    let r3 := (spanP isPyWs d1.2).2.drop 6
    if ((spanP isPyWs r3).1).isEmpty then none
    else
      let d2 := spanP Char.isDigit (spanP isPyWs r3).2
      if d2.1.isEmpty then none
      else some (digitsVal d1.1, digitsVal d2.1)

/-- `re.search` of the case-sensitive downto pattern inside the range
content. -/
def findDowntoCS : List Char → Option (Nat × Nat)
  | [] => none
  | c :: rest =>
    match tryDowntoAt (c :: rest) with
    | some r => some r
    | none => findDowntoCS rest

/-- The width computed for one fallback item: `int(d1) - int(d2) + 1` over
the integers — no `abs`, so a reversed range gives a non-positive width
(which the `Port` validator then rejects, aborting the guarded block). -/
def itemWidth (ptype : List Char) : Int :=
  match parenContent ptype with
  | none => 1
  | some content =>
    match findDowntoCS content with
    | none => 1
    | some (h, l) => (h : Int) - (l : Int) + 1

/-- The entity record assembled by the parser (the fields of the produced
`IpCore` that the claims concern: the VLNV name and the port list). -/
structure IpCore where
  name : String
  ports : List Port
deriving DecidableEq, Repr

/-- The result dictionary of `parse_text` / `_parse_with_regex` (the
`architecture`/`package` entries are filled by independent total regex
searches and are not modelled). -/
structure VhdlResult where
  entity : Option IpCore
deriving DecidableEq, Repr

/-- The Python exceptions relevant to the parse flow. -/
inductive PyExc where
  | parseErr | valueErr
deriving DecidableEq, Repr

/-- The port loop of `_parse_with_regex`: strip each part, skip empties,
strip line comments and re-strip, apply the loose item pattern, skip items
it cannot parse, and construct a `Port` — whose width validator raises
(aborting the whole guarded block) on a non-positive width. -/
def portsLoopE : List (List Char) → Except PyExc (List Port)
  | [] => .ok []
  | part :: rest =>
    if (trimL part).isEmpty then portsLoopE rest
    else
      match parsePortItem (trimL (stripLC (trimL part))) with
      | none => portsLoopE rest
      | some (n, d, t) =>
        if itemWidth t ≤ 0 then .error .valueErr
        else
          match portsLoopE rest with
          | .ok ps => .ok (⟨String.mk n, d, .num (itemWidth t).toNat, String.mk t⟩ :: ps)
          | .error e => .error e

/-- The port a fallback item contributes, if any (the loop above appends
exactly these when no width aborts the block). -/
def portOfPart (part : List Char) : Option Port :=
  if (trimL part).isEmpty then none
  else
    match parsePortItem (trimL (stripLC (trimL part))) with
    | none => none
    | some (n, d, t) =>
      some ⟨String.mk n, d, .num (itemWidth t).toNat, String.mk t⟩

/-- A fallback item cannot abort the guarded block: either the loose
pattern does not match it (it is skipped), or its width is positive. -/
def itemOKB (part : List Char) : Bool :=
  match parsePortItem (trimL (stripLC (trimL part))) with
  | none => true
  | some (_, _, t) => decide (0 < itemWidth t)

/-- `_parse_with_regex`: entity-name search, entity-body extraction,
port-section extraction, split at semicolons, per-item loop; any exception
in the guarded block leaves the entity absent. -/
def parseWithRegex (text : List Char) : VhdlResult :=
  match findEntityName text with
  | none => ⟨none⟩
  | some nm =>
    match findEntityBody nm text with
    | none => ⟨none⟩
    | some body =>
      match (match extractPortsText body with
             | none => Except.ok []
             | some ptxt => portsLoopE (splitOnChar ';' ptxt)) with
      | .error _ => ⟨none⟩
      | .ok ps => ⟨some ⟨String.mk nm, ps⟩⟩

theorem portsLoopE_ok (parts : List (List Char))
    (h : ∀ p ∈ parts, itemOKB p = true) :
    portsLoopE parts = .ok (parts.filterMap portOfPart) := by
  induction parts with
  | nil => rfl
  | cons part rest ih =>
    have hrest := ih fun p hp => h p (List.mem_cons_of_mem _ hp)
    have hpart := h part (List.mem_cons_self _ _)
    by_cases he : (trimL part).isEmpty = true
    · rw [portsLoopE, if_pos he, hrest, List.filterMap_cons,
        show portOfPart part = none by rw [portOfPart, if_pos he]]
    · rw [portsLoopE, if_neg he]
      cases hp : parsePortItem (trimL (stripLC (trimL part))) with
      | none =>
        rw [hrest, List.filterMap_cons,
          show portOfPart part = none by rw [portOfPart, if_neg he, hp]]
      | some ndt =>
        obtain ⟨n, d, t⟩ := ndt
        rw [itemOKB, hp] at hpart
        dsimp only at hpart ⊢
        have hw : ¬ itemWidth t ≤ 0 := by
          have := of_decide_eq_true hpart
          omega
        rw [if_neg hw, hrest, List.filterMap_cons,
          show portOfPart part =
            some ⟨String.mk n, d, .num (itemWidth t).toNat, String.mk t⟩ by
            rw [portOfPart, if_neg he, hp]]

/-- C8 (counterexample): a port list that contains an item the loose
pattern cannot parse (` count std_logic`, no direction keyword) is not
always returned as a partial list: here another, parseable item carries the
reversed literal range `(0 downto 7)`, its computed width `0 - 7 + 1` is
non-positive, the `Port` width validator raises a `ValueError`, and the
`except` clause of the guarded block blanks the whole entity — the result
is a total failure although the entity name was found. -/
theorem c8_fallback_counterexample :
    parsePortItem (trimL (stripLC (trimL (" count std_logic").data))) = none ∧
    (findEntityName
      ("entity bad is port (a : in std_logic_vector(0 downto 7); count std_logic); end bad;").data).isSome =
      true ∧
    (parseWithRegex
      ("entity bad is port (a : in std_logic_vector(0 downto 7); count std_logic); end bad;").data).entity =
      none :=
  ⟨by decide, by decide, by decide⟩

/-- C8 (amended): in the fallback tier, an item the loose per-item pattern
cannot parse is skipped (the loop `continue`s) and every other parseable
port is still returned — the overall result carries the entity, a partial
port list rather than `NoModuleFound` — provided no parsed item of the
list carries a non-positive literal width (a reversed `downto` range), the
one exception the guarded block can raise, which blanks the whole
entity. -/
theorem c8_fallback_partial (text nm body ptxt : List Char)
    (h1 : findEntityName text = some nm)
    (h2 : findEntityBody nm text = some body)
    (h3 : extractPortsText body = some ptxt)
    (h4 : ∀ p ∈ splitOnChar ';' ptxt, itemOKB p = true) :
    (parseWithRegex text).entity =
      some ⟨String.mk nm, (splitOnChar ';' ptxt).filterMap portOfPart⟩ := by
  rw [parseWithRegex, h1]
  dsimp only
  rw [h2]
  dsimp only
  rw [h3]
  dsimp only
  rw [portsLoopE_ok _ h4]

/-- Witness for C8 at the Scenario-4 entity: the last item has no
direction keyword, is skipped, and the other two ports survive. -/
theorem c8_fallback_partial_witness :
    (parseWithRegex ("entity counter is port (clk : in std_logic; rst : in std_logic; count std_logic_vector(7 downto 0)); end entity counter;").data).entity =
      some ⟨String.mk "counter".data,
        (splitOnChar ';'
          ("clk : in std_logic; rst : in std_logic; count std_logic_vector(7 downto 0)").data).filterMap
          portOfPart⟩ :=
  c8_fallback_partial
    ("entity counter is port (clk : in std_logic; rst : in std_logic; count std_logic_vector(7 downto 0)); end entity counter;").data
    ("counter").data
    ("port (clk : in std_logic; rst : in std_logic; count std_logic_vector(7 downto 0));").data
    ("clk : in std_logic; rst : in std_logic; count std_logic_vector(7 downto 0)").data
    (by decide) (by decide) (by decide) (by decide)

/-! ### `parse_text` of both parsers (C7): `VHDLParser.parse_text`
(`vhdl_parser.py`, lines 170-268) and `VerilogParser.parse_text`
(`verilog_parser.py`, lines 148-263).  The pyparsing tier is third-party
library code whose call sites the sources guard with
`except ParseBaseException`; it is abstracted as a function parameter that
may return any outcome (a parse failure, no match, or a parsed record),
so the theorems hold for every behavior of the library.  The regex tier is
embedded concretely. -/

/-- The fields of a tier-1 `port_decl` parse result that
`_create_port_from_data` reads. -/
structure PortData where
  portName : String
  direction : String
  typeStr : String
deriving DecidableEq, Repr

/-- A tier-1 entity parse result: name and port declarations (the generic
list only feeds `_create_parameter_from_data`, which guards all its
exceptions and so cannot raise). -/
structure EntityData where
  entityName : String
  portList : List PortData
deriving DecidableEq, Repr

/-- `VHDLParser.parse_text`: remove comments; try the pyparsing tier
(`ParseBaseException` is caught and falls through); with no entity, run the
regex fallback; with an entity, create ports through the internally guarded
`_create_port_from_data` and construct the `IpCore` — whose `VLNV`
validator raises an uncaught `ValueError` exactly when the stripped entity
name is empty. -/
def vhdlParseTextE (t1 : String → Except PyExc (Option EntityData))
    (text : String) : Except PyExc VhdlResult :=
  match t1 (removeComments text) with
  | .error _ => .ok (parseWithRegex (removeComments text).data)
  | .ok none => .ok (parseWithRegex (removeComments text).data)
  | .ok (some ed) =>
    if (trimL ed.entityName.data).isEmpty then .error .valueErr
    else
      .ok ⟨some ⟨ed.entityName,
        ed.portList.map (fun pd => createPortFromData pd.portName pd.direction pd.typeStr)⟩⟩

/-- `\[(\d+)\s*:\s*(\d+)\]` of the ANSI port pattern. -/
def tryBracket (cs : List Char) : Option ((Nat × Nat) × List Char) :=
  match cs with
  | '[' :: rest =>
    if ((spanP Char.isDigit rest).1).isEmpty then none
    else
      match (spanP isPyWs (spanP Char.isDigit rest).2).2 with
      | ':' :: r2 =>
        if ((spanP Char.isDigit (spanP isPyWs r2).2).1).isEmpty then none
        else
          match (spanP Char.isDigit (spanP isPyWs r2).2).2 with
          | ']' :: rest2 =>
            some ((digitsVal (spanP Char.isDigit rest).1,
                   digitsVal (spanP Char.isDigit (spanP isPyWs r2).2).1), rest2)
          | _ => none
      | _ => none
  | _ => none

/-- First alternative (in order) on which the function succeeds: the
backtracking order of a regex over the expansion choices of its optional
groups. -/
def firstSome {α β : Type} (f : α → Option β) : List α → Option β
  | [] => none
  | a :: as =>
    match f a with
    | some b => some b
    | none => firstSome f as

/-- `(\w+)`: a non-empty word-character run. -/
def nameAt (r : List Char) : Option (List Char × List Char) :=
  if ((spanP isWordChar r).1).isEmpty then none
  else some ((spanP isWordChar r).1, (spanP isWordChar r).2)

/-- One extracted port of the Verilog regex tier. -/
structure AnsiGroup where
  dir : String
  rng : Option (Nat × Nat)
  nmChars : List Char
deriving DecidableEq, Repr

/-- One anchored attempt of the ANSI port pattern
`(input|output|inout)\s+(reg|wire|logic)?\s*(?:\[(\d+)\s*:\s*(\d+)\])?\s*(\w+)`:
the optional type keyword and the optional bracket are each tried
present-then-absent, the regex's backtracking order. -/
def ansiMatchAt (cs : List Char) : Option (AnsiGroup × List Char) :=
  match tryKw ["input", "output", "inout"] cs with
  | none => none
  | some (dkw, r1) =>
    if ((spanP isPyWs r1).1).isEmpty then none
    else
      firstSome (fun r =>
        firstSome (fun bc =>
          match nameAt ((spanP isPyWs bc.2).2) with
          | some (nm, rest) => some (⟨dkw, bc.1, nm⟩, rest)
          | none => none)
          (match tryBracket ((spanP isPyWs r).2) with
           | some (b, r5) => [(some b, r5), (none, (spanP isPyWs r).2)]
           | none => [(none, (spanP isPyWs r).2)]))
        (match tryKw ["reg", "wire", "logic"] (spanP isPyWs r1).2 with
         | some (_, r3) => [r3, (spanP isPyWs r1).2]
         | none => [(spanP isPyWs r1).2])

/-- `re.findall` of the ANSI port pattern: scan left to right, collect
non-overlapping matches, continue after each match (fuel-driven; the
callers pass the input length, which suffices since every match consumes at
least one character). -/
def ansiFindAllF : Nat → List Char → List AnsiGroup
  | 0, _ => []
  | _ + 1, [] => []
  | n + 1, c :: rest =>
    match ansiMatchAt (c :: rest) with
    | some (g, rem) => g :: ansiFindAllF n rem
    | none => ansiFindAllF n rest

/-- One anchored attempt of the non-ANSI declaration pattern
`(input|output|inout)(?:\s+(?:reg|wire|logic))?(?:\s*\[(\d+)\s*:\s*(\d+)\])?(?:\s+(\w+))`
(whitespace is inside the optional groups here, and the name's whitespace
is required). -/
def declMatchAt (cs : List Char) : Option (AnsiGroup × List Char) :=
  match tryKw ["input", "output", "inout"] cs with
  | none => none
  | some (dkw, r1) =>
    firstSome (fun r =>
      firstSome (fun bc =>
        if ((spanP isPyWs bc.2).1).isEmpty then none
        else
          match nameAt ((spanP isPyWs bc.2).2) with
          | some (nm, rest) => some (⟨dkw, bc.1, nm⟩, rest)
          | none => none)
        (match tryBracket ((spanP isPyWs r).2) with
         | some (b, r5) => [(some b, r5), (none, r)]
         | none => [(none, r)]))
      (if ((spanP isPyWs r1).1).isEmpty then [r1]
       else
         match tryKw ["reg", "wire", "logic"] (spanP isPyWs r1).2 with
         | some (_, r3) => [r3, r1]
         | none => [r1])

/-- `re.findall` of the declaration pattern. -/
def declFindAllF : Nat → List Char → List AnsiGroup
  | 0, _ => []
  | _ + 1, [] => []
  | n + 1, c :: rest =>
    match declMatchAt (c :: rest) with
    | some (g, rem) => g :: declFindAllF n rem
    | none => declFindAllF n rest

/-- The `port_dict[p_name] = ...` dictionary: a later declaration of the
same name overwrites an earlier one, so look the name up from the end. -/
def declLookupLast (decls : List AnsiGroup) (k : List Char) : Option AnsiGroup :=
  match decls with
  | [] => none
  | g :: rest =>
    match declLookupLast rest k with
    | some r => some r
    | none => if g.nmChars = k then some g else none

/-- The lazy `(.*?)\);` of the module pattern: content up to the first
`)` immediately followed by `;`. -/
def upToCloseSemi : List Char → Option (List Char)
  | [] => none
  | ')' :: ';' :: _ => some []
  | c :: rest => (upToCloseSemi rest).map (c :: ·)

/-- One anchored attempt of `module\s+(\w+)\s*\((.*?)\);`
(`IGNORECASE | DOTALL`): returns (module name, port-list text). -/
def moduleMatchAt (cs : List Char) : Option (List Char × List Char) :=
  match matchCaseless "module".data cs with
  | none => none
  | some r1 =>
    if ((spanP isPyWs r1).1).isEmpty then none
    else
      match nameAt ((spanP isPyWs r1).2) with
      | none => none
      | some (nm, r2) =>
        match (spanP isPyWs r2).2 with
        | '(' :: r3 =>
          match upToCloseSemi r3 with
          | some content => some (nm, content)
          | none => none
        | _ => none

/-- `re.search` of the module pattern: leftmost match. -/
def findModule : List Char → Option (List Char × List Char)
  | [] => none
  | c :: rest =>
    match moduleMatchAt (c :: rest) with
    | some r => some r
    | none => findModule rest

/-- The module record built by the Verilog regex tier: ANSI-style ports
when the ANSI pattern matched anything in the port-list text, otherwise the
non-ANSI route — comma-split names resolved against the declarations found
in the whole text, defaulting to a scalar input. -/
def buildVerilogModule (full nm ptxt : List Char) : IpCore :=
  match ansiFindAllF (ptxt.length + 1) ptxt with
  | [] =>
    ⟨String.mk nm,
      (((splitOnChar ',' ptxt).map trimL).filter (fun l => !l.isEmpty)).map (fun n =>
        match declLookupLast (declFindAllF (full.length + 1) full) n with
        | some g =>
          verilogCreatePort (String.mk n) g.dir (g.rng.map (·.1)) (g.rng.map (·.2))
        | none => verilogCreatePort (String.mk n) "input" none none)⟩
  | g :: gs =>
    ⟨String.mk nm,
      (g :: gs).map (fun g2 =>
        verilogCreatePort (String.mk g2.nmChars) g2.dir (g2.rng.map (·.1))
          (g2.rng.map (·.2)))⟩

/-- The result dictionary of `VerilogParser.parse_text`. -/
structure VerilogResult where
  moduleRec : Option IpCore
deriving DecidableEq, Repr

/-- The fields of a pyparsing `port_decl` that `_create_port_from_decl`
reads. -/
structure VPortDecl where
  pdir : String
  prng : Option (Nat × Nat)
  pname : String
deriving DecidableEq, Repr

/-- A pyparsing module parse result. -/
structure VModuleData where
  moduleName : String
  portDecls : List VPortDecl
deriving DecidableEq, Repr

/-- `VerilogParser.parse_text`: bail out when `module` does not occur in
the lowercased text; try the regex tier (whose whole body is guarded, and
whose port construction cannot raise: widths are `abs(..) + 1`); fall back
to the pyparsing tier, guarded only by `except ParseBaseException` — where
the `VLNV` of `_create_ip_core` raises an uncaught `ValueError` exactly
when the stripped module name is empty. -/
def verilogParseTextE (t2 : String → Except PyExc (Option VModuleData))
    (text : String) : Except PyExc VerilogResult :=
  if hasSubList "module".data (lowerStr text).data = false then .ok ⟨none⟩
  else
    match findModule text.data with
    | some (nm, ptxt) => .ok ⟨some (buildVerilogModule text.data nm ptxt)⟩
    | none =>
      match t2 text with
      | .error _ => .ok ⟨none⟩
      | .ok none => .ok ⟨none⟩
      | .ok (some md) =>
        if (trimL md.moduleName.data).isEmpty then .error .valueErr
        else
          .ok ⟨some ⟨md.moduleName,
            md.portDecls.map (fun pd =>
              verilogCreatePort pd.pname pd.pdir (pd.prng.map (·.1))
                (pd.prng.map (·.2)))⟩⟩

/-- Did the call return a value rather than raise? -/
def isOkE {α : Type} : Except PyExc α → Bool
  | .ok _ => true
  | .error _ => false

/-- C7: for every input string, both `parse_text` implementations return a
result record and never raise — for every behavior of the abstracted
pyparsing tier whose reported entity/module names are non-empty after
stripping (pyparsing identifiers are non-empty `Word`s, so this covers
every outcome the library can produce); all other exception sources are
caught or cannot fire. -/
theorem c7_parse_text_total
    (t1 : String → Except PyExc (Option EntityData))
    (t2 : String → Except PyExc (Option VModuleData))
    (h1 : ∀ s ed, t1 s = .ok (some ed) → (trimL ed.entityName.data).isEmpty = false)
    (h2 : ∀ s md, t2 s = .ok (some md) → (trimL md.moduleName.data).isEmpty = false)
    (text : String) :
    isOkE (vhdlParseTextE t1 text) = true ∧
    isOkE (verilogParseTextE t2 text) = true := by
  constructor
  · rw [vhdlParseTextE]
    cases ht : t1 (removeComments text) with
    | error e => rfl
    | ok oed =>
      cases oed with
      | none => rfl
      | some ed =>
        dsimp only
        rw [if_neg (by rw [h1 _ _ ht]; exact Bool.false_ne_true)]
        rfl
  · rw [verilogParseTextE]
    by_cases hmod : hasSubList "module".data (lowerStr text).data = false
    · rw [if_pos hmod]
      rfl
    · rw [if_neg hmod]
      cases findModule text.data with
      | some r => rfl
      | none =>
        dsimp only
        cases ht : t2 text with
        | error e => rfl
        | ok omd =>
          cases omd with
          | none => rfl
          | some md =>
            dsimp only
            rw [if_neg (by rw [h2 _ _ ht]; exact Bool.false_ne_true)]
            rfl

/-- Witness for C7 with a trivial pyparsing tier (no match reported) on a
concrete input. -/
theorem c7_parse_text_total_witness :
    isOkE (vhdlParseTextE (fun _ => .ok none)
      "entity e is port (a : in std_logic); end e;") = true ∧
    isOkE (verilogParseTextE (fun _ => .ok none)
      "entity e is port (a : in std_logic); end e;") = true :=
  c7_parse_text_total (fun _ => .ok none) (fun _ => .ok none)
    (by intro s ed h; injection h with h2; exact Option.noConfusion h2)
    (by intro s md h; injection h with h2; exact Option.noConfusion h2)
    "entity e is port (a : in std_logic); end e;"

end Ipcraft
